import Mathlib

/-!
# Verification of the io_uring UDP send benchmark (src/src/main.cpp)

Shallow embedding of the benchmark harness: the `buffer_pool` ring-buffer
allocator, the naive per-call allocator, sqe preparation, and the driver's
fill / submit / harvest loop (`run`, lines 195-287 of main.cpp).

Modelling conventions:
- Buffers are identified by `Nat` ids standing for the `unsigned char *`
  pointers; buffer contents and `buffer_size` play no role in the claims.
- Kernel nondeterminism (wall-clock readings, `io_uring_submit` return
  values, which in-flight operations complete between two harvests and with
  what result codes) is captured by a schedule oracle `Sched`.
- The driver carries a ghost event log (`Ev.acq` / `Ev.rel`) recording each
  successful `get_buffer` and each `release_buffer` invocation; the log is
  pure instrumentation and influences no control flow.
- The outer `for(;;)` loop is modelled with explicit fuel; `none` means the
  fuel budget was exhausted before the run returned.
-/

/-- Model of `owned_io_uring::initialize` (main.cpp lines 22-31): the value
actually passed to `io_uring_queue_init` as the queue depth.  The source
ignores both the `entries` and the `flags` parameters and hardcodes 32. -/
def ring_init_depth (entries : Nat) (flags : Nat) : Nat := 32

/-- The queue depth `run` requests from `owned_io_uring::initialize`
(main.cpp line 198: `owned_io_uring::initialize(8, 0)`). -/
def run_requested_depth : Nat := 8

/-- The submission-queue depth the ring actually has during a run: the
hardcoded 32 from `io_uring_queue_init(32, &ring, 0)` (main.cpp line 26).
`io_uring_get_sqe` yields slots until this many are prepared. -/
def sq_depth : Nat := ring_init_depth run_requested_depth 0

/-- The bounded run duration: `now - start > std::chrono::seconds(1)`
(main.cpp line 229), measured in seconds. -/
def run_duration : Nat := 1

/-- Model of `buffer_pool<Capacity>` (main.cpp lines 131-193).
`cap` is the `Capacity` template parameter, `ring` the
`std::array<unsigned char *, Capacity>` (indexed modulo `cap`), and
`head`/`tail` the monotone counters.  `buffer_size` is dropped: buffer
contents are irrelevant to every claim. -/
structure buffer_pool where
  cap : Nat
  ring : Nat → Nat
  head : Nat
  tail : Nat

/-- A freshly constructed `buffer_pool` (constructor at main.cpp line 133):
`head = tail = 0`, array contents indeterminate (modelled as 0). -/
def mk_buffer_pool (cap : Nat) : buffer_pool :=
  { cap := cap, ring := fun _ => 0, head := 0, tail := 0 }

/-- `buffer_pool::get_buffer` (main.cpp lines 148-153):
empty when `head == tail`, otherwise yields `ring[head++ % Capacity]`. -/
def buffer_pool.get_buffer (p : buffer_pool) : Option (Nat × buffer_pool) :=
  if p.head = p.tail then none
  else some (p.ring (p.head % p.cap), { p with head := p.head + 1 })

/-- `buffer_pool::release_buffer` (main.cpp lines 155-162): fails (returns
`false`, unchanged pool) when `tail == head + Capacity`, otherwise stores
`buf` at `ring[tail++ % Capacity]` and returns `true`. -/
def buffer_pool.release_buffer (p : buffer_pool) (buf : Nat) : Bool × buffer_pool :=
  if p.tail = p.head + p.cap then (false, p)
  else (true, { p with
                ring := fun i => if i = p.tail % p.cap then buf else p.ring i,
                tail := p.tail + 1 })

/-- `buffer_pool::add_new_buffer` (main.cpp lines 164-175).  `alloc` is the
result of the `new (std::nothrow)` call (`none` = allocation failure). -/
def buffer_pool.add_new_buffer (p : buffer_pool) (alloc : Option Nat) : Bool × buffer_pool :=
  if p.tail = p.head + p.cap then (false, p)
  else
    match alloc with
    | none => (false, p)
    | some buf =>
        (true, { p with
                 ring := fun i => if i = p.tail % p.cap then buf else p.ring i,
                 tail := p.tail + 1 })

/-- The loop body of `buffer_pool::reserve` starting at iteration `i`
(main.cpp lines 177-184); `alloc i` is the result of the i-th `new`. -/
def buffer_pool.reserveFrom (alloc : Nat → Option Nat) : Nat → Nat → buffer_pool → Bool × buffer_pool
  | _, 0, p => (true, p)
  | i, count + 1, p =>
    match p.add_new_buffer (alloc i) with
    | (false, p') => (false, p')
    | (true, p') => buffer_pool.reserveFrom alloc (i + 1) count p'

/-- `buffer_pool::reserve(count)` (main.cpp lines 177-184). -/
def buffer_pool.reserve (p : buffer_pool) (alloc : Nat → Option Nat) (count : Nat) : Bool × buffer_pool :=
  buffer_pool.reserveFrom alloc 0 count p

/-- Number of buffers currently held free by the pool (`tail - head`). -/
def buffer_pool.freeCount (p : buffer_pool) : Nat := p.tail - p.head

/-- The buffers held free by the pool, in ring order: slots
`head, head+1, ..., tail-1` of the circular array. -/
def buffer_pool.freeList (p : buffer_pool) : List Nat :=
  (List.range (p.tail - p.head)).map (fun i => p.ring ((p.head + i) % p.cap))

/-- Well-formedness of the pool counters: at most `cap` buffers are stored
and `head` never overtakes `tail`.  Holds for every pool reachable from
`mk_buffer_pool` through the pool operations. -/
def buffer_pool.WF (p : buffer_pool) : Prop := p.head ≤ p.tail ∧ p.tail ≤ p.head + p.cap

instance (p : buffer_pool) : Decidable p.WF := by
  unfold buffer_pool.WF; infer_instance

/-- State of `naive_buffer_allocator` (main.cpp lines 116-129).  The source
object holds only `buffer_size`; `next` is a ghost source of fresh pointer
ids for `new`, and `alloc_ok` tells whether the n-th `new (std::nothrow)`
succeeds. -/
structure naive_state where
  next : Nat
  alloc_ok : Nat → Bool

/-- The uniform `{get_buffer, release_buffer}` capability the driver is
templated over (`template <class BufferAllocator>` at main.cpp line 195).
`get_buffer` yields `none` when the strategy has no buffer (null span);
`release_buffer` returns the updated allocator state (the driver discards
the `bool` result of `buffer_pool::release_buffer`, lines 241 and 270). -/
structure BufAlloc (σ : Type) where
  get_buffer : σ → Option (Nat × σ)
  release_buffer : σ → Nat → σ

/-- The `buffer_pool` instantiation of the allocator capability. -/
def pool_alloc : BufAlloc buffer_pool :=
  { get_buffer := buffer_pool.get_buffer,
    release_buffer := fun p b => (p.release_buffer b).2 }

/-- The `naive_buffer_allocator` instantiation: `get_buffer` is a fresh
`new` (failing when the oracle says so, main.cpp lines 120-123), and
`release_buffer` is `delete[]` (main.cpp line 125) — it returns no signal
and performs no check. -/
def naive_alloc : BufAlloc naive_state :=
  { get_buffer := fun s =>
      if s.alloc_ok s.next then some (s.next, { s with next := s.next + 1 }) else none,
    release_buffer := fun s _ => s }

/-- The fields of an `io_uring_sqe` the benchmark sets (main.cpp lines
245-256): the fd field of `io_uring_prep_sendto`, the `IOSQE_FIXED_FILE`
flag bit, and the `user_data` tag (the buffer pointer). -/
structure io_uring_sqe where
  fd : Int
  fixed_file : Bool
  user_data : Nat
deriving DecidableEq

/-- The fixed-file index of the socket: `io_uring_register_files(&ring,
&socket->fd, 1)` (main.cpp line 211) registers a one-element table, so the
socket is at index 0, and the fixed-file send uses fd field 0 (line 246). -/
def registered_file_index : Int := 0

/-- Slot preparation (main.cpp lines 245-256): with `fixed_files` the sqe
addresses fd slot 0 and carries `IOSQE_FIXED_FILE`; otherwise it addresses
the raw descriptor with no flag.  `user_data` is the buffer tag. -/
def prepare_send (fixed_files : Bool) (socket_fd : Int) (buf : Nat) : io_uring_sqe :=
  if fixed_files then { fd := registered_file_index, fixed_file := true, user_data := buf }
  else { fd := socket_fd, fixed_file := false, user_data := buf }

/-- Ghost events: `acq b` records a successful `get_buffer` yielding `b`,
`rel b` records an invocation of `release_buffer` on `b`. -/
inductive Ev
  | acq (buf : Nat)
  | rel (buf : Nat)
deriving DecidableEq

/-- The environment oracle for one run: `elapsed k` is the wall-clock
seconds elapsed at the k-th deadline check (line 228-229); `submit_ret k`
the return of `io_uring_submit` in iteration k (line 259); `completions k`
the completions the kernel has ready at the k-th harvest — each entry picks
one in-flight operation (by index, reduced modulo the in-flight count) and
gives its result code, so completion order is arbitrary. -/
structure Sched where
  elapsed : Nat → Nat
  submit_ret : Nat → Int
  completions : Nat → List (Nat × Int)

/-- The driver state at an iteration boundary: allocator state, tags of
submitted-but-not-completed operations, `datagram_count`, and ghost log. -/
structure IterState (σ : Type) where
  alloc : σ
  inflight : List Nat
  count : Nat
  log : List Ev

/-- Outcome of one fill/submit/harvest iteration: normal continuation, the
`io_uring_submit` failure return at line 262, or the negative-completion
failure return at line 274. -/
inductive StepResult (σ : Type)
  | ok (st : IterState σ)
  | submit_error
  | op_error

/-- `true` exactly on the `submit_error` outcome. -/
def StepResult.isSubmitErr {σ : Type} : StepResult σ → Bool
  | .submit_error => true
  | _ => false

/-- `true` exactly on the `ok` outcome. -/
def StepResult.isOk {σ : Type} : StepResult σ → Bool
  | .ok _ => true
  | _ => false

/-- The fill phase (main.cpp lines 232-257), with `avail` remaining
submission-queue slots.  Each round: `get_buffer`; on a null buffer the
phase ends ("Not enough buffers.", line 235); otherwise `io_uring_get_sqe`
— when the queue is full (`avail = 0`) the just-acquired buffer is released
back (line 241) and the phase ends; otherwise the send is prepared and
tagged.  Returns the allocator state, the prepared sqes, and the log. -/
def fill {σ : Type} (A : BufAlloc σ) (ff : Bool) (sfd : Int) :
    Nat → σ → σ × List io_uring_sqe × List Ev
  | 0, s =>
    match A.get_buffer s with
    | none => (s, [], [])
    | some (b, s') => (A.release_buffer s' b, [], [Ev.acq b, Ev.rel b])
  | a + 1, s =>
    match A.get_buffer s with
    | none => (s, [], [])
    | some (b, s') =>
      let r := fill A ff sfd a s'
      (r.1, prepare_send ff sfd b :: r.2.1, Ev.acq b :: r.2.2)

/-- The result of the harvest phase: allocator state, remaining in-flight
tags, processed completion records `(tag, res)`, the `datagram_count`
increment, whether a negative result aborted the run (line 272-275), and
the release log. -/
structure harvest_result (σ : Type) where
  alloc : σ
  inflight : List Nat
  recs : List (Nat × Int)
  count : Nat
  fatal : Bool
  log : List Ev

/-- The harvest phase (main.cpp lines 265-281): iterate the completions the
kernel has ready (`io_uring_for_each_cqe`); for each, `release_buffer` its
tag (line 270), then abort on a negative result (lines 272-275) without
touching the remaining records, else count it.  Entries beyond the
in-flight population cannot correspond to real completions and end the
drain. -/
def harvest {σ : Type} (A : BufAlloc σ) : List (Nat × Int) → List Nat → σ → harvest_result σ
  | [], infl, s => ⟨s, infl, [], 0, false, []⟩
  | (pick, res) :: rest, infl, s =>
    if infl.length = 0 then ⟨s, infl, [], 0, false, []⟩
    else
      let idx := pick % infl.length
      let tag := infl.getD idx 0
      let s' := A.release_buffer s tag
      let infl' := infl.eraseIdx idx
      if res < 0 then ⟨s', infl', [(tag, res)], 0, true, [Ev.rel tag]⟩
      else
        let r := harvest A rest infl' s'
        ⟨r.alloc, r.inflight, (tag, res) :: r.recs, r.count + 1, r.fatal, Ev.rel tag :: r.log⟩

/-- One iteration of the driver loop (main.cpp lines 232-281): fill with
`sq_depth` free slots, flush (`io_uring_submit`, fatal iff the return is
negative, lines 259-263), append the newly submitted tags to the in-flight
population, then harvest. -/
def iterStep {σ : Type} (A : BufAlloc σ) (ff : Bool) (sfd : Int) (s : Sched) (k : Nat)
    (st : IterState σ) : StepResult σ :=
  let f := fill A ff sfd sq_depth st.alloc
  if s.submit_ret k < 0 then .submit_error
  else
    let infl := st.inflight ++ f.2.1.map io_uring_sqe.user_data
    let h := harvest A (s.completions k) infl f.1
    if h.fatal then .op_error
    else .ok ⟨h.alloc, h.inflight, st.count + h.count, st.log ++ f.2.2 ++ h.log⟩

/-- The outer `for(;;)` loop of `run` (main.cpp lines 227-282), with
explicit fuel.  Iteration k first checks the deadline (lines 228-230,
success return), then performs one fill/submit/harvest step; a fatal step
is the `return false` of lines 262 / 274 (the state returned alongside
`false` is the last iteration-boundary state, for inspection only).
`none` = fuel exhausted before the run returned. -/
def runLoop {σ : Type} (A : BufAlloc σ) (ff : Bool) (sfd : Int) (s : Sched) :
    Nat → Nat → IterState σ → Option (Bool × IterState σ)
  | 0, _, _ => none
  | fuel + 1, k, st =>
    if s.elapsed k > run_duration then some (true, st)
    else
      match iterStep A ff sfd s k st with
      | .ok st' => runLoop A ff sfd s fuel (k + 1) st'
      | _ => some (false, st)

/-- `n` consecutive driver iterations starting at iteration index `k`,
ignoring the deadline: the states reachable at iteration boundaries.  A
fatal outcome is absorbing. -/
def iterN {σ : Type} (A : BufAlloc σ) (ff : Bool) (sfd : Int) (s : Sched) :
    Nat → Nat → IterState σ → StepResult σ
  | 0, _, st => .ok st
  | n + 1, k, st =>
    match iterStep A ff sfd s k st with
    | .ok st' => iterN A ff sfd s n (k + 1) st'
    | e => e

/-- The initial driver state: allocator as configured, nothing in flight,
`datagram_count = 0` (main.cpp line 225). -/
def initState {σ : Type} (a : σ) : IterState σ := ⟨a, [], 0, []⟩

/-- The process exit code as a function of `main`'s checks (main.cpp lines
289-311): `EXIT_FAILURE` (1) if `reserve` fails or any of the three `run`
invocations returns `false`, else `EXIT_SUCCESS` (0). -/
def mainExitCode (reserve_ok r1 r2 r3 : Bool) : Nat :=
  if !reserve_ok then 1
  else if !r1 then 1
  else if !r2 then 1
  else if !r3 then 1
  else 0

/-- `n` consecutive `get_buffer` calls on a pool, stopping at the first
empty yield; returns the obtained buffers and the final pool. -/
def getN : Nat → buffer_pool → List Nat × buffer_pool
  | 0, p => ([], p)
  | n + 1, p =>
    match p.get_buffer with
    | none => ([], p)
    | some (b, p') =>
      let r := getN n p'
      (b :: r.1, r.2)

/-- Acquire one buffer from the pool, then invoke `release_buffer` on it
twice in a row; yields the two `release_buffer` results (`none` when the
pool was empty). -/
def double_release_after_get (p : buffer_pool) : Option (Bool × Bool) :=
  (p.get_buffer).map (fun r =>
    let r1 := r.2.release_buffer r.1
    (r1.1, (r1.2.release_buffer r.1).1))

/-! ## Basic pool lemmas -/

theorem buffer_pool.freeCount_le_cap {p : buffer_pool} (h : p.WF) : p.freeCount ≤ p.cap := by
  have := h.1; have := h.2; unfold buffer_pool.freeCount; omega

theorem buffer_pool.get_buffer_spec {p : buffer_pool} {b : Nat} {p' : buffer_pool}
    (h : p.get_buffer = some (b, p')) :
    p.head ≠ p.tail ∧ b = p.ring (p.head % p.cap) ∧ p' = { p with head := p.head + 1 } := by
  unfold buffer_pool.get_buffer at h
  split at h
  · exact absurd h (by simp)
  · next hne =>
    simp only [Option.some.injEq, Prod.mk.injEq] at h
    exact ⟨hne, h.1.symm, h.2.symm⟩

theorem buffer_pool.get_buffer_none_iff {p : buffer_pool} :
    p.get_buffer = none ↔ p.head = p.tail := by
  unfold buffer_pool.get_buffer
  split <;> simp_all

theorem buffer_pool.get_buffer_wf {p : buffer_pool} {b : Nat} {p' : buffer_pool}
    (hWF : p.WF) (h : p.get_buffer = some (b, p')) :
    p'.WF ∧ p'.cap = p.cap ∧ p'.freeCount + 1 = p.freeCount := by
  obtain ⟨hne, -, hp'⟩ := buffer_pool.get_buffer_spec h
  obtain ⟨h1, h2⟩ := hWF
  subst hp'
  refine ⟨⟨?_, ?_⟩, rfl, ?_⟩ <;> simp [buffer_pool.freeCount] <;> omega

theorem buffer_pool.release_buffer_of_not_full {p : buffer_pool} {b : Nat}
    (h : p.tail ≠ p.head + p.cap) :
    p.release_buffer b
      = (true, { p with
                 ring := fun i => if i = p.tail % p.cap then b else p.ring i,
                 tail := p.tail + 1 }) := by
  unfold buffer_pool.release_buffer
  simp [h]

theorem buffer_pool.release_buffer_not_full_of_lt {p : buffer_pool}
    (hWF : p.WF) (hlt : p.freeCount < p.cap) : p.tail ≠ p.head + p.cap := by
  have := hWF.1
  unfold buffer_pool.freeCount at hlt
  omega

theorem buffer_pool.release_buffer_wf {p : buffer_pool} (b : Nat)
    (hWF : p.WF) (hlt : p.freeCount < p.cap) :
    (p.release_buffer b).1 = true ∧ (p.release_buffer b).2.WF ∧
    (p.release_buffer b).2.cap = p.cap ∧
    (p.release_buffer b).2.freeCount = p.freeCount + 1 := by
  rw [buffer_pool.release_buffer_of_not_full
        (buffer_pool.release_buffer_not_full_of_lt hWF hlt)]
  have h1 := hWF.1; have h2 := hWF.2
  unfold buffer_pool.freeCount at hlt ⊢
  refine ⟨rfl, ⟨?_, ?_⟩, rfl, ?_⟩ <;> (simp; omega)

theorem buffer_pool.add_new_buffer_true {p : buffer_pool} {alloc : Option Nat} {p' : buffer_pool}
    (hWF : p.WF) (h : p.add_new_buffer alloc = (true, p')) :
    p'.WF ∧ p'.cap = p.cap ∧ p'.freeCount = p.freeCount + 1 := by
  unfold buffer_pool.add_new_buffer at h
  split at h
  · exact absurd h (by simp)
  · next hfull =>
    match alloc, h with
    | some buf, h =>
      simp only [Prod.mk.injEq] at h
      obtain ⟨-, hp'⟩ := h
      subst hp'
      have h1 := hWF.1; have h2 := hWF.2
      unfold buffer_pool.freeCount
      refine ⟨⟨?_, ?_⟩, rfl, ?_⟩ <;> (simp; omega)

theorem buffer_pool.reserveFrom_true {alloc : Nat → Option Nat} :
    ∀ (count i : Nat) (p p' : buffer_pool),
      buffer_pool.reserveFrom alloc i count p = (true, p') → p.WF →
      p'.WF ∧ p'.cap = p.cap ∧ p'.freeCount = p.freeCount + count := by
  intro count
  induction count with
  | zero =>
    intro i p p' h hWF
    unfold buffer_pool.reserveFrom at h
    simp only [Prod.mk.injEq] at h
    obtain ⟨-, hp⟩ := h
    subst hp
    exact ⟨hWF, rfl, rfl⟩
  | succ n ih =>
    intro i p p' h hWF
    unfold buffer_pool.reserveFrom at h
    rcases hadd : p.add_new_buffer (alloc i) with ⟨b, q⟩
    rw [hadd] at h
    match b, h with
    | true, h =>
      obtain ⟨hq, hqc, hqf⟩ := buffer_pool.add_new_buffer_true hWF hadd
      obtain ⟨h1, h2, h3⟩ := ih (i + 1) q p' h hq
      exact ⟨h1, h2.trans hqc, by omega⟩

theorem mk_buffer_pool_wf (cap : Nat) : (mk_buffer_pool cap).WF := by
  constructor <;> simp [mk_buffer_pool]

theorem buffer_pool.reserve_true {cap N : Nat} {alloc : Nat → Option Nat}
    (h : ((mk_buffer_pool cap).reserve alloc N).1 = true) :
    ((mk_buffer_pool cap).reserve alloc N).2.WF ∧
    ((mk_buffer_pool cap).reserve alloc N).2.cap = cap ∧
    ((mk_buffer_pool cap).reserve alloc N).2.freeCount = N := by
  have hres : buffer_pool.reserveFrom alloc 0 N (mk_buffer_pool cap)
      = (true, ((mk_buffer_pool cap).reserve alloc N).2) := by
    rw [← h]; rfl
  obtain ⟨h1, h2, h3⟩ :=
    buffer_pool.reserveFrom_true N 0 (mk_buffer_pool cap) _ hres (mk_buffer_pool_wf cap)
  refine ⟨h1, by simpa [mk_buffer_pool] using h2, ?_⟩
  rw [h3]; simp [mk_buffer_pool, buffer_pool.freeCount]

/-! ## Unfolding lemmas for the driver phases -/

theorem pool_alloc_get (p : buffer_pool) : pool_alloc.get_buffer p = p.get_buffer := rfl

theorem pool_alloc_release (p : buffer_pool) (b : Nat) :
    pool_alloc.release_buffer p b = (p.release_buffer b).2 := rfl

theorem fill_of_get_none {σ : Type} (A : BufAlloc σ) (ff : Bool) (sfd : Int) (avail : Nat)
    {s : σ} (h : A.get_buffer s = none) : fill A ff sfd avail s = (s, [], []) := by
  cases avail <;> simp [fill, h]

theorem fill_zero_of_get_some {σ : Type} (A : BufAlloc σ) (ff : Bool) (sfd : Int)
    {s s' : σ} {b : Nat} (h : A.get_buffer s = some (b, s')) :
    fill A ff sfd 0 s = (A.release_buffer s' b, [], [Ev.acq b, Ev.rel b]) := by
  simp [fill, h]

theorem fill_succ_of_get_some {σ : Type} (A : BufAlloc σ) (ff : Bool) (sfd : Int) (a : Nat)
    {s s' : σ} {b : Nat} (h : A.get_buffer s = some (b, s')) :
    fill A ff sfd (a + 1) s
      = ((fill A ff sfd a s').1,
         prepare_send ff sfd b :: (fill A ff sfd a s').2.1,
         Ev.acq b :: (fill A ff sfd a s').2.2) := by
  simp [fill, h]

theorem harvest_nil {σ : Type} (A : BufAlloc σ) (infl : List Nat) (s : σ) :
    harvest A [] infl s = ⟨s, infl, [], 0, false, []⟩ := rfl

theorem harvest_cons_empty {σ : Type} (A : BufAlloc σ) (pick : Nat) (res : Int)
    (rest : List (Nat × Int)) {infl : List Nat} (s : σ) (h : infl.length = 0) :
    harvest A ((pick, res) :: rest) infl s = ⟨s, infl, [], 0, false, []⟩ := by
  simp [harvest, h]

theorem harvest_cons_neg {σ : Type} (A : BufAlloc σ) (pick : Nat) {res : Int}
    (rest : List (Nat × Int)) {infl : List Nat} (s : σ)
    (h : infl.length ≠ 0) (hres : res < 0) :
    harvest A ((pick, res) :: rest) infl s
      = ⟨A.release_buffer s (infl.getD (pick % infl.length) 0),
         infl.eraseIdx (pick % infl.length),
         [(infl.getD (pick % infl.length) 0, res)], 0, true,
         [Ev.rel (infl.getD (pick % infl.length) 0)]⟩ := by
  rw [harvest]
  rw [if_neg h, if_pos hres]

theorem harvest_cons_nonneg {σ : Type} (A : BufAlloc σ) (pick : Nat) {res : Int}
    (rest : List (Nat × Int)) {infl : List Nat} (s : σ)
    (h : infl.length ≠ 0) (hres : ¬res < 0) :
    harvest A ((pick, res) :: rest) infl s
      = ⟨(harvest A rest (infl.eraseIdx (pick % infl.length))
            (A.release_buffer s (infl.getD (pick % infl.length) 0))).alloc,
         (harvest A rest (infl.eraseIdx (pick % infl.length))
            (A.release_buffer s (infl.getD (pick % infl.length) 0))).inflight,
         (infl.getD (pick % infl.length) 0, res)
           :: (harvest A rest (infl.eraseIdx (pick % infl.length))
                (A.release_buffer s (infl.getD (pick % infl.length) 0))).recs,
         (harvest A rest (infl.eraseIdx (pick % infl.length))
            (A.release_buffer s (infl.getD (pick % infl.length) 0))).count + 1,
         (harvest A rest (infl.eraseIdx (pick % infl.length))
            (A.release_buffer s (infl.getD (pick % infl.length) 0))).fatal,
         Ev.rel (infl.getD (pick % infl.length) 0)
           :: (harvest A rest (infl.eraseIdx (pick % infl.length))
                (A.release_buffer s (infl.getD (pick % infl.length) 0))).log⟩ := by
  rw [harvest]
  rw [if_neg h, if_neg hres]

theorem iterStep_of_submit_neg {σ : Type} (A : BufAlloc σ) (ff : Bool) (sfd : Int) (s : Sched)
    (k : Nat) (st : IterState σ) (h : s.submit_ret k < 0) :
    iterStep A ff sfd s k st = .submit_error := by
  simp [iterStep, h]

theorem iterStep_of_submit_nonneg {σ : Type} (A : BufAlloc σ) (ff : Bool) (sfd : Int) (s : Sched)
    (k : Nat) (st : IterState σ) (h : ¬s.submit_ret k < 0) :
    iterStep A ff sfd s k st
      = (let f := fill A ff sfd sq_depth st.alloc
         let h2 := harvest A (s.completions k)
            (st.inflight ++ f.2.1.map io_uring_sqe.user_data) f.1
         if h2.fatal then .op_error
         else .ok ⟨h2.alloc, h2.inflight, st.count + h2.count, st.log ++ f.2.2 ++ h2.log⟩) := by
  rw [iterStep]
  rw [if_neg h]

/-! ## Conservation of buffers through the driver phases (pool strategy) -/

theorem get_release_restore {p : buffer_pool} {b : Nat} {p' : buffer_pool}
    (hWF : p.WF) (h : p.get_buffer = some (b, p')) (c : Nat) :
    (p'.release_buffer c).1 = true ∧ (p'.release_buffer c).2.WF ∧
    (p'.release_buffer c).2.cap = p.cap ∧
    (p'.release_buffer c).2.freeCount = p.freeCount := by
  obtain ⟨hWF', hcap, hfree⟩ := buffer_pool.get_buffer_wf hWF h
  have hlt : p'.freeCount < p'.cap := by
    have := buffer_pool.freeCount_le_cap hWF
    omega
  obtain ⟨h1, h2, h3, h4⟩ := buffer_pool.release_buffer_wf c hWF' hlt
  exact ⟨h1, h2, h3.trans hcap, by omega⟩

theorem fill_pool_conservation (ff : Bool) (sfd : Int) :
    ∀ (avail : Nat) (p : buffer_pool), p.WF →
      (fill pool_alloc ff sfd avail p).1.WF ∧
      (fill pool_alloc ff sfd avail p).1.cap = p.cap ∧
      (fill pool_alloc ff sfd avail p).1.freeCount + (fill pool_alloc ff sfd avail p).2.1.length
        = p.freeCount := by
  intro avail
  induction avail with
  | zero =>
    intro p hWF
    rcases hget : p.get_buffer with - | ⟨b, p'⟩
    · rw [fill_of_get_none pool_alloc ff sfd 0 hget]
      exact ⟨hWF, rfl, rfl⟩
    · rw [fill_zero_of_get_some pool_alloc ff sfd hget]
      obtain ⟨-, h2, h3, h4⟩ := get_release_restore hWF hget b
      exact ⟨h2, h3, h4⟩
  | succ a ih =>
    intro p hWF
    rcases hget : p.get_buffer with - | ⟨b, p'⟩
    · rw [fill_of_get_none pool_alloc ff sfd (a + 1) hget]
      exact ⟨hWF, rfl, rfl⟩
    · obtain ⟨hWF', hcap, hfree⟩ := buffer_pool.get_buffer_wf hWF hget
      obtain ⟨h1, h2, h3⟩ := ih p' hWF'
      rw [fill_succ_of_get_some pool_alloc ff sfd a hget]
      exact ⟨h1, h2.trans hcap, by simp only [List.length_cons]; omega⟩

theorem harvest_pool_conservation :
    ∀ (cs : List (Nat × Int)) (infl : List Nat) (p : buffer_pool) (S : Nat), p.WF →
      p.freeCount + infl.length = S → S ≤ p.cap →
      (harvest pool_alloc cs infl p).alloc.WF ∧
      (harvest pool_alloc cs infl p).alloc.cap = p.cap ∧
      (harvest pool_alloc cs infl p).alloc.freeCount
        + (harvest pool_alloc cs infl p).inflight.length = S := by
  intro cs
  induction cs with
  | nil =>
    intro infl p S hWF hS hcap
    exact ⟨hWF, rfl, hS⟩
  | cons c rest ih =>
    rcases c with ⟨pick, res⟩
    intro infl p S hWF hS hcap
    by_cases hlen : infl.length = 0
    · rw [harvest_cons_empty pool_alloc pick res rest p hlen]
      exact ⟨hWF, rfl, hS⟩
    · have hidx : pick % infl.length < infl.length := Nat.mod_lt _ (by omega)
      have hlt : p.freeCount < p.cap := by omega
      obtain ⟨hr1, hr2, hr3, hr4⟩ :=
        buffer_pool.release_buffer_wf (infl.getD (pick % infl.length) 0) hWF hlt
      have herase : (infl.eraseIdx (pick % infl.length)).length = infl.length - 1 := by
        rw [List.length_eraseIdx]
        simp [hidx]
      by_cases hres : res < 0
      · rw [harvest_cons_neg pool_alloc pick rest p hlen hres]
        refine ⟨hr2, hr3, ?_⟩
        rw [pool_alloc_release]
        simp only [herase, hr4]
        omega
      · rw [harvest_cons_nonneg pool_alloc pick rest p hlen hres]
        obtain ⟨hh1, hh2, hh3⟩ :=
          ih (infl.eraseIdx (pick % infl.length))
            ((p.release_buffer (infl.getD (pick % infl.length) 0)).2) S
            hr2 (by rw [herase, hr4]; omega) (by rw [hr3]; exact hcap)
        exact ⟨hh1, hh2.trans hr3, hh3⟩

theorem iterStep_pool_conservation {ff : Bool} {sfd : Int} {s : Sched} {k : Nat}
    {st st' : IterState buffer_pool} (S : Nat)
    (hWF : st.alloc.WF) (hS : st.alloc.freeCount + st.inflight.length = S)
    (hcap : S ≤ st.alloc.cap)
    (h : iterStep pool_alloc ff sfd s k st = .ok st') :
    st'.alloc.WF ∧ st'.alloc.cap = st.alloc.cap ∧
    st'.alloc.freeCount + st'.inflight.length = S ∧ S ≤ st'.alloc.cap := by
  by_cases hsub : s.submit_ret k < 0
  · rw [iterStep_of_submit_neg pool_alloc ff sfd s k st hsub] at h
    exact absurd h (by simp)
  · rw [iterStep_of_submit_nonneg pool_alloc ff sfd s k st hsub] at h
    obtain ⟨hf1, hf2, hf3⟩ := fill_pool_conservation ff sfd sq_depth st.alloc hWF
    have hinfl :
        (fill pool_alloc ff sfd sq_depth st.alloc).1.freeCount
          + (st.inflight
              ++ (fill pool_alloc ff sfd sq_depth st.alloc).2.1.map io_uring_sqe.user_data).length
          = S := by
      rw [List.length_append, List.length_map]
      omega
    obtain ⟨hh1, hh2, hh3⟩ :=
      harvest_pool_conservation (s.completions k) _ _ S hf1 hinfl (by rw [hf2]; exact hcap)
    simp only at h
    split at h
    · exact absurd h (by simp)
    · simp only [StepResult.ok.injEq] at h
      subst h
      exact ⟨hh1, hh2.trans hf2, hh3, by rw [hh2.trans hf2]; exact hcap⟩

theorem iterN_pool_conservation {ff : Bool} {sfd : Int} {s : Sched} (S : Nat) :
    ∀ (n k : Nat) (st : IterState buffer_pool), st.alloc.WF →
      st.alloc.freeCount + st.inflight.length = S → S ≤ st.alloc.cap →
      (match iterN pool_alloc ff sfd s n k st with
       | .ok st' => st'.alloc.WF ∧ st'.alloc.freeCount + st'.inflight.length = S
           ∧ S ≤ st'.alloc.cap
       | _ => True) := by
  intro n
  induction n with
  | zero =>
    intro k st hWF hS hcap
    exact ⟨hWF, hS, hcap⟩
  | succ m ih =>
    intro k st hWF hS hcap
    rcases hstep : iterStep pool_alloc ff sfd s k st with st' | - | -
    · obtain ⟨h1, h2, h3, h4⟩ := iterStep_pool_conservation S hWF hS hcap hstep
      simpa only [iterN, hstep] using ih (k + 1) st' h1 h3 h4
    · simp [iterN, hstep]
    · simp [iterN, hstep]

/-! ## Ghost-log accounting -/

theorem prepare_send_user_data (ff : Bool) (sfd : Int) (b : Nat) :
    (prepare_send ff sfd b).user_data = b := by
  cases ff <;> rfl

theorem count_eraseIdx {l : List Nat} {i : Nat} (h : i < l.length) (b : Nat) :
    l.count b = (l.eraseIdx i).count b + (if l[i] = b then 1 else 0) := by
  conv_lhs => rw [← List.take_append_drop i l]
  rw [List.drop_eq_getElem_cons h, List.eraseIdx_eq_take_drop_succ]
  simp only [List.count_append, List.count_cons, beq_iff_eq]
  by_cases hx : l[i] = b <;> simp [hx] <;> omega

theorem fill_log_count {σ : Type} (A : BufAlloc σ) (ff : Bool) (sfd : Int) :
    ∀ (avail : Nat) (s : σ) (b : Nat),
      (fill A ff sfd avail s).2.2.count (Ev.acq b)
        = ((fill A ff sfd avail s).2.1.map io_uring_sqe.user_data).count b
          + (fill A ff sfd avail s).2.2.count (Ev.rel b) := by
  intro avail
  induction avail with
  | zero =>
    intro s b
    rcases hget : A.get_buffer s with - | ⟨c, s'⟩
    · rw [fill_of_get_none A ff sfd 0 hget]
      simp
    · rw [fill_zero_of_get_some A ff sfd hget]
      simp only [List.map_nil, List.count_nil, List.count_cons, List.count_singleton]
      by_cases hc : c = b <;> simp [hc]
  | succ a ih =>
    intro s b
    rcases hget : A.get_buffer s with - | ⟨c, s'⟩
    · rw [fill_of_get_none A ff sfd (a + 1) hget]
      simp
    · rw [fill_succ_of_get_some A ff sfd a hget]
      simp only [List.map_cons, List.count_cons, beq_iff_eq, prepare_send_user_data]
      have := ih s' b
      by_cases hc : c = b <;> simp [hc] <;> omega

theorem harvest_log_rel {σ : Type} (A : BufAlloc σ) :
    ∀ (cs : List (Nat × Int)) (infl : List Nat) (s : σ),
      (harvest A cs infl s).log
        = (harvest A cs infl s).recs.map (fun r => Ev.rel r.1) := by
  intro cs
  induction cs with
  | nil => intro infl s; rfl
  | cons c rest ih =>
    rcases c with ⟨pick, res⟩
    intro infl s
    by_cases hlen : infl.length = 0
    · rw [harvest_cons_empty A pick res rest s hlen]
      rfl
    · by_cases hres : res < 0
      · rw [harvest_cons_neg A pick rest s hlen hres]
        rfl
      · rw [harvest_cons_nonneg A pick rest s hlen hres]
        rw [List.map_cons]
        exact congrArg _ (ih _ _)

theorem harvest_fatal_iff {σ : Type} (A : BufAlloc σ) :
    ∀ (cs : List (Nat × Int)) (infl : List Nat) (s : σ),
      (harvest A cs infl s).fatal
        = (harvest A cs infl s).recs.any (fun r => decide (r.2 < 0)) := by
  intro cs
  induction cs with
  | nil => intro infl s; rfl
  | cons c rest ih =>
    rcases c with ⟨pick, res⟩
    intro infl s
    by_cases hlen : infl.length = 0
    · rw [harvest_cons_empty A pick res rest s hlen]
      rfl
    · by_cases hres : res < 0
      · rw [harvest_cons_neg A pick rest s hlen hres]
        simp [hres]
      · rw [harvest_cons_nonneg A pick rest s hlen hres]
        simp only [List.any_cons]
        rw [← ih]
        simp [hres]

theorem count_rel_cons (t b : Nat) (l : List Ev) :
    (Ev.rel t :: l).count (Ev.rel b) = l.count (Ev.rel b) + (if t = b then 1 else 0) := by
  by_cases hx : t = b <;> simp [List.count_cons, hx]

theorem harvest_log_count {σ : Type} (A : BufAlloc σ) :
    ∀ (cs : List (Nat × Int)) (infl : List Nat) (s : σ) (b : Nat),
      (harvest A cs infl s).log.count (Ev.rel b)
        + (harvest A cs infl s).inflight.count b = infl.count b := by
  intro cs
  induction cs with
  | nil => intro infl s b; simp [harvest_nil]
  | cons c rest ih =>
    rcases c with ⟨pick, res⟩
    intro infl s b
    by_cases hlen : infl.length = 0
    · rw [harvest_cons_empty A pick res rest s hlen]
      simp
    · have hidx : pick % infl.length < infl.length := Nat.mod_lt _ (by omega)
      have hgetD : infl.getD (pick % infl.length) 0 = infl[pick % infl.length] :=
        List.getD_eq_getElem infl 0 hidx
      by_cases hres : res < 0
      · rw [harvest_cons_neg A pick rest s hlen hres]
        show (Ev.rel (infl.getD (pick % infl.length) 0) :: []).count (Ev.rel b)
            + (infl.eraseIdx (pick % infl.length)).count b = infl.count b
        rw [count_rel_cons, count_eraseIdx hidx b, hgetD]
        simp only [List.count_nil]
        omega
      · rw [harvest_cons_nonneg A pick rest s hlen hres]
        show (Ev.rel (infl.getD (pick % infl.length) 0)
              :: (harvest A rest (infl.eraseIdx (pick % infl.length))
                   (A.release_buffer s (infl.getD (pick % infl.length) 0))).log).count (Ev.rel b)
            + (harvest A rest (infl.eraseIdx (pick % infl.length))
                (A.release_buffer s (infl.getD (pick % infl.length) 0))).inflight.count b
            = infl.count b
        have hih := ih (infl.eraseIdx (pick % infl.length)) (A.release_buffer s
          (infl.getD (pick % infl.length) 0)) b
        rw [count_rel_cons, count_eraseIdx hidx b]
        rw [hgetD] at hih ⊢
        omega

theorem harvest_log_no_acq {σ : Type} (A : BufAlloc σ)
    (cs : List (Nat × Int)) (infl : List Nat) (s : σ) (b : Nat) :
    (harvest A cs infl s).log.count (Ev.acq b) = 0 := by
  rw [harvest_log_rel A cs infl s]
  rw [List.count_eq_zero]
  intro hmem
  obtain ⟨r, -, hr⟩ := List.mem_map.mp hmem
  exact Ev.noConfusion hr

/-- The per-buffer accounting invariant tying the ghost log to the
in-flight population: every acquired buffer has either been released or is
still in flight, each exactly once per acquisition. -/
def logBalanced {σ : Type} (st : IterState σ) : Prop :=
  ∀ b, st.log.count (Ev.acq b) = st.log.count (Ev.rel b) + st.inflight.count b

theorem iterStep_logBalanced {σ : Type} {A : BufAlloc σ} {ff : Bool} {sfd : Int} {s : Sched}
    {k : Nat} {st st' : IterState σ}
    (hJ : logBalanced st) (h : iterStep A ff sfd s k st = .ok st') :
    logBalanced st' := by
  by_cases hsub : s.submit_ret k < 0
  · rw [iterStep_of_submit_neg A ff sfd s k st hsub] at h
    exact absurd h (by simp)
  · rw [iterStep_of_submit_nonneg A ff sfd s k st hsub] at h
    simp only at h
    split at h
    · exact absurd h (by simp)
    · simp only [StepResult.ok.injEq] at h
      subst h
      intro b
      simp only [List.count_append]
      have hfill := fill_log_count A ff sfd sq_depth st.alloc b
      have hharv := harvest_log_count A (s.completions k)
        (st.inflight ++ (fill A ff sfd sq_depth st.alloc).2.1.map io_uring_sqe.user_data)
        (fill A ff sfd sq_depth st.alloc).1 b
      have hnoacq := harvest_log_no_acq A (s.completions k)
        (st.inflight ++ (fill A ff sfd sq_depth st.alloc).2.1.map io_uring_sqe.user_data)
        (fill A ff sfd sq_depth st.alloc).1 b
      have hst := hJ b
      simp only [List.count_append] at hharv
      omega

theorem runLoop_logBalanced {σ : Type} (A : BufAlloc σ) (ff : Bool) (sfd : Int) (s : Sched) :
    ∀ (fuel k : Nat) (st : IterState σ), logBalanced st →
      (match runLoop A ff sfd s fuel k st with
       | some (_, st') => logBalanced st'
       | none => True) := by
  intro fuel
  induction fuel with
  | zero => intro k st hJ; simp [runLoop]
  | succ f ih =>
    intro k st hJ
    by_cases hel : s.elapsed k > run_duration
    · simp only [runLoop, if_pos hel]
      exact hJ
    · rcases hstep : iterStep A ff sfd s k st with st' | - | -
      · simpa only [runLoop, if_neg hel, hstep] using
          ih (k + 1) st' (iterStep_logBalanced hJ hstep)
      · simp only [runLoop, if_neg hel, hstep]
        exact hJ
      · simp only [runLoop, if_neg hel, hstep]
        exact hJ

/-! ## Termination of the bounded run -/

theorem fill_stops {σ : Type} (A : BufAlloc σ) (ff : Bool) (sfd : Int) :
    ∀ (avail : Nat) (s : σ),
      (fill A ff sfd avail s).2.1.length = avail
        ∨ A.get_buffer (fill A ff sfd avail s).1 = none := by
  intro avail
  induction avail with
  | zero =>
    intro s
    rcases hget : A.get_buffer s with - | ⟨b, s'⟩
    · rw [fill_of_get_none A ff sfd 0 hget]
      exact Or.inl rfl
    · rw [fill_zero_of_get_some A ff sfd hget]
      exact Or.inl rfl
  | succ a ih =>
    intro s
    rcases hget : A.get_buffer s with - | ⟨b, s'⟩
    · rw [fill_of_get_none A ff sfd (a + 1) hget]
      exact Or.inr hget
    · rw [fill_succ_of_get_some A ff sfd a hget]
      rcases ih s' with h | h
      · exact Or.inl (by simp [h])
      · exact Or.inr h

theorem runLoop_terminates {σ : Type} (A : BufAlloc σ) (ff : Bool) (sfd : Int) (s : Sched) :
    ∀ (d fuel k : Nat) (st : IterState σ), s.elapsed (k + d) > run_duration → d < fuel →
      (runLoop A ff sfd s fuel k st).isSome = true := by
  intro d
  induction d with
  | zero =>
    intro fuel k st h hf
    obtain ⟨f, rfl⟩ : ∃ f, fuel = f + 1 := ⟨fuel - 1, by omega⟩
    rw [runLoop, if_pos (by simpa using h)]
    rfl
  | succ d ih =>
    intro fuel k st h hf
    obtain ⟨f, rfl⟩ : ∃ f, fuel = f + 1 := ⟨fuel - 1, by omega⟩
    by_cases hel : s.elapsed k > run_duration
    · rw [runLoop, if_pos hel]
      rfl
    · rw [runLoop, if_neg hel]
      rcases hstep : iterStep A ff sfd s k st with st' | - | -
      all_goals simp only [hstep]
      · exact ih f (k + 1) st' (by rw [show k + 1 + d = k + (d + 1) from by omega]; exact h)
          (by omega)
      · rfl
      · rfl

theorem runLoop_success_crossed {σ : Type} (A : BufAlloc σ) (ff : Bool) (sfd : Int) (s : Sched) :
    ∀ (fuel k : Nat) (st : IterState σ),
      (runLoop A ff sfd s fuel k st).map Prod.fst = some true →
      ∃ j, k ≤ j ∧ s.elapsed j > run_duration := by
  intro fuel
  induction fuel with
  | zero =>
    intro k st h
    simp [runLoop] at h
  | succ f ih =>
    intro k st h
    by_cases hel : s.elapsed k > run_duration
    · exact ⟨k, Nat.le_refl k, hel⟩
    · rw [runLoop, if_neg hel] at h
      rcases hstep : iterStep A ff sfd s k st with st' | - | -
      all_goals simp only [hstep] at h
      · obtain ⟨j, hj1, hj2⟩ := ih (k + 1) st' h
        exact ⟨j, by omega, hj2⟩
      · simp at h
      · simp at h

/-! ## The backpressure branch restores the pool -/

theorem freeList_no_collision {cap h t i : Nat} (hle : h ≤ t) (hcap : t ≤ h + cap)
    (hi : i < t - h - 1) : (h + 1 + i) % cap ≠ t % cap := by
  intro heq
  have hmod : Nat.ModEq cap (h + 1 + i) t := heq
  have hd : cap ∣ t - (h + 1 + i) := (Nat.modEq_iff_dvd' (by omega)).mp hmod
  have hpos : 0 < t - (h + 1 + i) := by omega
  have := Nat.le_of_dvd hpos hd
  omega

theorem get_release_freeList_perm {p : buffer_pool} (hWF : p.WF) (hne : p.head ≠ p.tail) :
    ((({ p with head := p.head + 1 } : buffer_pool).release_buffer
        (p.ring (p.head % p.cap))).2.freeList).Perm p.freeList := by
  obtain ⟨h1, h2⟩ := hWF
  have hfull : ¬(({ p with head := p.head + 1 } : buffer_pool).tail
      = ({ p with head := p.head + 1 } : buffer_pool).head
        + ({ p with head := p.head + 1 } : buffer_pool).cap) := by
    simp only
    omega
  rw [buffer_pool.release_buffer]
  rw [if_neg hfull]
  have hA : (buffer_pool.freeList
      ⟨p.cap,
       fun i => if i = p.tail % p.cap then p.ring (p.head % p.cap) else p.ring i,
       p.head + 1, p.tail + 1⟩)
      = ((List.range (p.tail - p.head - 1)).map
          (fun i => p.ring ((p.head + 1 + i) % p.cap))) ++ [p.ring (p.head % p.cap)] := by
    unfold buffer_pool.freeList
    simp only
    rw [show p.tail + 1 - (p.head + 1) = (p.tail - p.head - 1) + 1 from by omega]
    rw [List.range_succ, List.map_append]
    congr 1
    · apply List.map_congr_left
      intro i hi
      have hi' : i < p.tail - p.head - 1 := List.mem_range.mp hi
      rw [if_neg (freeList_no_collision h1 h2 hi')]
    · simp only [List.map_cons, List.map_nil]
      rw [show p.head + 1 + (p.tail - p.head - 1) = p.tail from by omega]
      rw [if_pos rfl]
  have hB : buffer_pool.freeList p
      = p.ring (p.head % p.cap)
        :: (List.range (p.tail - p.head - 1)).map
            (fun i => p.ring ((p.head + 1 + i) % p.cap)) := by
    unfold buffer_pool.freeList
    rw [show p.tail - p.head = (p.tail - p.head - 1) + 1 from by omega]
    rw [List.range_succ_eq_map, List.map_cons, List.map_map]
    congr 1
    simp only [Nat.add_sub_cancel]
    apply List.map_congr_left
    intro i hi
    simp only [Function.comp]
    congr 2
    omega
  rw [hA, hB]
  exact List.perm_append_singleton _ _

/-! ## Concrete fixtures for counterexamples and witnesses -/

set_option maxRecDepth 100000

/-- A capacity-1 pool holding one free buffer (id 7). -/
def pool_one_of_one : buffer_pool := { cap := 1, ring := fun _ => 7, head := 0, tail := 1 }

/-- A capacity-2 pool holding one free buffer (id 9): one slot of headroom,
as after `reserve(1)` on an empty capacity-2 pool. -/
def pool_one_free : buffer_pool := { cap := 2, ring := fun _ => 9, head := 0, tail := 1 }

/-- A capacity-4 pool holding two free buffers (ids 0 and 1). -/
def pool_two_of_four : buffer_pool := { cap := 4, ring := fun i => i, head := 0, tail := 2 }

/-- The capacity-256 pool after `reserve(256)` on an empty pool, every
allocation succeeding (the i-th `new` yields pointer id i). -/
def pool256 : buffer_pool := ((mk_buffer_pool 256).reserve (fun i => some i) 256).2

/-- A schedule where the deadline is crossed at the second check, every
submit is accepted (`io_uring_submit` returns 1), and the kernel never has
a completion ready while the loop runs. -/
def sched_no_completions : Sched :=
  { elapsed := fun k => if k = 0 then 0 else 2,
    submit_ret := fun _ => 1,
    completions := fun _ => [] }

/-- A schedule where every submit is accepted and exactly one completion
(result code 3) is ready at each harvest; deadline crossed at the second
check. -/
def sched_one_completion : Sched :=
  { elapsed := fun k => if k = 0 then 0 else 2,
    submit_ret := fun _ => 1,
    completions := fun _ => [(0, 3)] }

/-- A schedule where the first harvest finds one failed completion
(result code -1). -/
def sched_neg_completion : Sched :=
  { elapsed := fun _ => 0,
    submit_ret := fun _ => 1,
    completions := fun _ => [(0, -1)] }

/-- A schedule whose clock is already past the deadline at the first check. -/
def sched_done : Sched :=
  { elapsed := fun _ => 2,
    submit_ret := fun _ => 1,
    completions := fun _ => [] }

/-! ## Claims -/

/-- C1 (code bug): the claim says `initialize(queue_depth)` creates the
ring with submission depth equal to the requested `queue_depth`, but
`owned_io_uring::initialize` (main.cpp line 26) ignores its `entries`
parameter and hardcodes `io_uring_queue_init(32, &ring, 0)`: `run` requests
depth 8 (line 198) and the ring is created with depth 32. -/
theorem c1_init_depth_bug :
    ring_init_depth run_requested_depth 0 = 32
      ∧ ring_init_depth run_requested_depth 0 ≠ run_requested_depth := by
  decide

/-- C2 counterexample: a terminating, successful run (the deadline breaks
the loop at the second check) in which buffer 7 was obtained once by
`get_buffer`, submitted, and never completed: the run returns `true` with
one `acq 7` event, zero `rel 7` events, and buffer 7 still in flight.  This
refutes "every buffer successfully obtained ... has release_buffer invoked
on it exactly once by the time the run returns". -/
theorem c2_counterexample :
    (runLoop pool_alloc false 5 sched_no_completions 3 0 (initState pool_one_of_one)).map
      (fun r => (r.1, r.2.log.count (Ev.acq 7), r.2.log.count (Ev.rel 7), r.2.inflight))
      = some (true, 1, 0, [7]) := by
  decide

/-- C2 (amended): in every terminating run of the driver, for every buffer,
the number of successful `get_buffer` acquisitions equals the number of
`release_buffer` invocations plus the number of copies still in flight when
the run ends — i.e. every obtained buffer is released exactly once EXCEPT
those whose completion the kernel had not delivered when the loop exited
(or when a fatal error aborted it); those are never released. -/
theorem c2_round_trip_amended {σ : Type} (A : BufAlloc σ) (ff : Bool) (sfd : Int)
    (s : Sched) (fuel : Nat) (a : σ) :
    match runLoop A ff sfd s fuel 0 (initState a) with
    | some (_, st) => ∀ b, st.log.count (Ev.acq b)
        = st.log.count (Ev.rel b) + st.inflight.count b
    | none => True := by
  have hJ : logBalanced (initState a) := fun b => by simp [initState]
  exact runLoop_logBalanced A ff sfd s fuel 0 (initState a) hJ

/-- C3: for the pool strategy initialized with a successful `reserve(N)` on
a fresh pool, at every iteration boundary of the driver loop (any schedule,
any number of iterations, unless the run already aborted) the number of
buffers free in the pool plus the number handed out and not yet returned
equals N. -/
theorem c3_conservation (ff : Bool) (sfd : Int) (s : Sched) (cap N n : Nat)
    (alloc : Nat → Option Nat)
    (hres : ((mk_buffer_pool cap).reserve alloc N).1 = true) :
    match iterN pool_alloc ff sfd s n 0
        (initState ((mk_buffer_pool cap).reserve alloc N).2) with
    | .ok st => st.alloc.freeCount + st.inflight.length = N
    | _ => True := by
  obtain ⟨hWF, hcap, hfree⟩ := buffer_pool.reserve_true hres
  have hNcap : N ≤ ((mk_buffer_pool cap).reserve alloc N).2.cap := by
    have := buffer_pool.freeCount_le_cap hWF
    omega
  have h := @iterN_pool_conservation ff sfd s N n 0
    (initState ((mk_buffer_pool cap).reserve alloc N).2) hWF
    (by simpa [initState] using hfree) hNcap
  rcases hit : iterN pool_alloc ff sfd s n 0
      (initState ((mk_buffer_pool cap).reserve alloc N).2) with st | - | -
  · rw [hit] at h
    exact h.2.1
  · trivial
  · trivial

/-- C3 witness: capacity 2, `reserve(1)` succeeding, one driver iteration
in which the buffer is submitted and completes; conservation holds. -/
theorem c3_conservation_witness :
    ((mk_buffer_pool 2).reserve (fun _ => some 5) 1).1 = true ∧
    (match iterN pool_alloc false 4 sched_one_completion 1 0
        (initState ((mk_buffer_pool 2).reserve (fun _ => some 5) 1).2) with
     | .ok st => st.alloc.freeCount + st.inflight.length = 1
     | _ => True) :=
  ⟨by decide,
   c3_conservation false 4 sched_one_completion 2 1 1 (fun _ => some 5) (by decide)⟩

/-- C4 counterexample: an iteration prepares 2 slots, `io_uring_submit`
reports only 1 accepted (a shortfall, since 1 < 2), yet the run is NOT
treated as fatal: the step is not a submit error, it is a normal step, and
the whole run returns success.  The code (main.cpp lines 259-263) only
checks `ret < 0` and never compares the accepted count with the number of
prepared slots. -/
theorem c4_counterexample :
    (fill pool_alloc false 5 sq_depth pool_two_of_four).2.1.length = 2 ∧
    sched_no_completions.submit_ret 0 = 1 ∧
    (iterStep pool_alloc false 5 sched_no_completions 0
        (initState pool_two_of_four)).isSubmitErr = false ∧
    (iterStep pool_alloc false 5 sched_no_completions 0
        (initState pool_two_of_four)).isOk = true ∧
    (runLoop pool_alloc false 5 sched_no_completions 3 0
        (initState pool_two_of_four)).map Prod.fst = some true := by
  decide

/-- C4 (amended): the submit phase aborts the run exactly when
`io_uring_submit` returns a negative error code; a non-negative return
smaller than the number of prepared slots is not detected and the run
continues normally. -/
theorem c4_submit_abort_amended {σ : Type} (A : BufAlloc σ) (ff : Bool) (sfd : Int)
    (s : Sched) (k : Nat) (st : IterState σ) :
    (iterStep A ff sfd s k st).isSubmitErr = true ↔ s.submit_ret k < 0 := by
  constructor
  · intro h
    by_contra hsub
    rw [iterStep_of_submit_nonneg A ff sfd s k st hsub] at h
    simp only at h
    split at h <;> simp [StepResult.isSubmitErr] at h
  · intro hsub
    rw [iterStep_of_submit_neg A ff sfd s k st hsub]
    rfl

/-- C5 counterexample: on a capacity-2 pool holding one free buffer,
acquire buffer 9 with `get_buffer`, then invoke `release_buffer` on it
twice with no intervening `get_buffer`: both calls return `true` — the
double release is accepted exactly like a normal release, not detected or
rejected.  This refutes "calling release_buffer a second time on the same
buffer ... is detected or rejected by the implementation". -/
theorem c5_counterexample : double_release_after_get pool_one_free = some (true, true) := by
  decide

/-- C5 (amended): `buffer_pool::release_buffer` rejects a release exactly
when the ring is full (`tail == head + Capacity`), irrespective of which
buffer is being released or whether it was ever handed out; in particular a
double release into a non-full pool is accepted as a normal release (and
`naive_buffer_allocator::release_buffer` returns no indication at all). -/
theorem c5_release_acceptance_amended (p : buffer_pool) (buf : Nat) :
    (p.release_buffer buf).1 = decide (p.tail ≠ p.head + p.cap) := by
  by_cases h : p.tail = p.head + p.cap <;> simp [buffer_pool.release_buffer, h]

/-- C6: during the harvest phase (any strategy, any schedule): (1) the
releases performed are exactly one `release_buffer` per harvested
completion record, on the buffer named by the record's tag; (2) the harvest
aborts as fatal iff some harvested record carries a negative result code;
(3) a fatal harvest makes the iteration an operation error (when the submit
itself did not fail first); (4) an operation error makes the run return
`false` at that iteration; (5) any failed run makes the process exit code
nonzero (main.cpp lines 289-311). -/
theorem c6_harvest_fatal {σ : Type} (A : BufAlloc σ) :
    (∀ (cs : List (Nat × Int)) (infl : List Nat) (a : σ),
       (harvest A cs infl a).log = (harvest A cs infl a).recs.map (fun r => Ev.rel r.1)) ∧
    (∀ (cs : List (Nat × Int)) (infl : List Nat) (a : σ),
       (harvest A cs infl a).fatal
         = (harvest A cs infl a).recs.any (fun r => decide (r.2 < 0))) ∧
    (∀ (ff : Bool) (sfd : Int) (s : Sched) (k : Nat) (st : IterState σ),
       ¬s.submit_ret k < 0 →
       (harvest A (s.completions k)
          (st.inflight ++ (fill A ff sfd sq_depth st.alloc).2.1.map io_uring_sqe.user_data)
          (fill A ff sfd sq_depth st.alloc).1).fatal = true →
       iterStep A ff sfd s k st = .op_error) ∧
    (∀ (ff : Bool) (sfd : Int) (s : Sched) (fuel k : Nat) (st : IterState σ),
       ¬s.elapsed k > run_duration → iterStep A ff sfd s k st = .op_error →
       runLoop A ff sfd s (fuel + 1) k st = some (false, st)) ∧
    (∀ reserve_ok r1 r2 r3 : Bool, r1 = false ∨ r2 = false ∨ r3 = false →
       mainExitCode reserve_ok r1 r2 r3 ≠ 0) := by
  refine ⟨harvest_log_rel A, harvest_fatal_iff A, ?_, ?_, ?_⟩
  · intro ff sfd s k st hsub hfat
    rw [iterStep_of_submit_nonneg A ff sfd s k st hsub]
    simp only [hfat]
    rfl
  · intro ff sfd s fuel k st hel hstep
    rw [runLoop, if_neg hel, hstep]
  · decide

/-- C6 witness: one in-flight buffer (7) whose completion fails with -1:
its buffer is still released, the record makes the harvest fatal, the
iteration is an operation error, the run returns `false`, and the exit code
with a failed run is nonzero. -/
theorem c6_harvest_fatal_witness :
    ((harvest pool_alloc [(0, (-1 : Int))] [7] (mk_buffer_pool 1)).log
       = (harvest pool_alloc [(0, (-1 : Int))] [7] (mk_buffer_pool 1)).recs.map
           (fun r => Ev.rel r.1)) ∧
    ((harvest pool_alloc [(0, (-1 : Int))] [7] (mk_buffer_pool 1)).fatal
       = (harvest pool_alloc [(0, (-1 : Int))] [7] (mk_buffer_pool 1)).recs.any
           (fun r => decide (r.2 < 0))) ∧
    (iterStep pool_alloc false 4 sched_neg_completion 0 (initState pool_one_of_one)
       = .op_error) ∧
    (runLoop pool_alloc false 4 sched_neg_completion (2 + 1) 0 (initState pool_one_of_one)
       = some (false, initState pool_one_of_one)) ∧
    (mainExitCode true true false true ≠ 0) :=
  ⟨(c6_harvest_fatal pool_alloc).1 [(0, (-1 : Int))] [7] (mk_buffer_pool 1),
   (c6_harvest_fatal pool_alloc).2.1 [(0, (-1 : Int))] [7] (mk_buffer_pool 1),
   (c6_harvest_fatal pool_alloc).2.2.1 false 4 sched_neg_completion 0
     (initState pool_one_of_one) (by decide) (by decide),
   (c6_harvest_fatal pool_alloc).2.2.2.1 false 4 sched_neg_completion 2 0
     (initState pool_one_of_one) (by decide) (by rfl),
   (c6_harvest_fatal pool_alloc).2.2.2.2 true true false true (Or.inr (Or.inl rfl))⟩

/-- C7: `reserve(256)` on an empty capacity-256 pool succeeds and leaves
256 free buffers; 256 consecutive `get_buffer` calls each yield a buffer,
emptying the pool; the 257th yields nothing; and whenever `get_buffer`
yields nothing the fill phase ends at once with no submission slot prepared
(and no event logged) for the missing buffer. -/
theorem c7_pool_exhaustion :
    ((mk_buffer_pool 256).reserve (fun i => some i) 256).1 = true ∧
    pool256.freeCount = 256 ∧
    (getN 256 pool256).1.length = 256 ∧
    ((getN 256 pool256).2.get_buffer).isNone = true ∧
    (∀ (ff : Bool) (sfd : Int) (avail : Nat) (p : buffer_pool),
       p.get_buffer = none → fill pool_alloc ff sfd avail p = (p, [], [])) := by
  refine ⟨by decide, by decide, by decide, by decide, ?_⟩
  intro ff sfd avail p h
  exact fill_of_get_none pool_alloc ff sfd avail h

/-- C7 witness: the fill phase on an empty pool prepares nothing. -/
theorem c7_pool_exhaustion_witness :
    (mk_buffer_pool 4).get_buffer = none
      ∧ fill pool_alloc true 3 32 (mk_buffer_pool 4) = (mk_buffer_pool 4, [], []) :=
  ⟨rfl, c7_pool_exhaustion.2.2.2.2 true 3 32 (mk_buffer_pool 4) rfl⟩

theorem fill_mem_prepared {σ : Type} (A : BufAlloc σ) (ff : Bool) (sfd : Int) :
    ∀ (avail : Nat) (a : σ) (sqe : io_uring_sqe), sqe ∈ (fill A ff sfd avail a).2.1 →
      ∃ b, sqe = prepare_send ff sfd b := by
  intro avail
  induction avail with
  | zero =>
    intro a sqe h
    rcases hget : A.get_buffer a with - | ⟨b, s'⟩
    · rw [fill_of_get_none A ff sfd 0 hget] at h
      simp at h
    · rw [fill_zero_of_get_some A ff sfd hget] at h
      simp at h
  | succ n ih =>
    intro a sqe h
    rcases hget : A.get_buffer a with - | ⟨b, s'⟩
    · rw [fill_of_get_none A ff sfd (n + 1) hget] at h
      simp at h
    · rw [fill_succ_of_get_some A ff sfd n hget] at h
      rcases List.mem_cons.mp h with h | h
      · exact ⟨b, h⟩
      · exact ih s' sqe h

/-- C8: every send prepared by the fill phase with `fixed_files = true`
carries the fixed-file flag and addresses the socket through the registered
fixed-file index (0, the index returned by registering the one-element
table), never through the raw descriptor; with `fixed_files = false` every
prepared send addresses the raw descriptor and carries no flag. -/
theorem c8_fixed_files_addressing {σ : Type} (A : BufAlloc σ) (sfd : Int) (avail : Nat)
    (a : σ) (sqe : io_uring_sqe) :
    (sqe ∈ (fill A true sfd avail a).2.1 →
       sqe.fixed_file = true ∧ sqe.fd = registered_file_index) ∧
    (sqe ∈ (fill A false sfd avail a).2.1 →
       sqe.fixed_file = false ∧ sqe.fd = sfd) := by
  constructor
  · intro h
    obtain ⟨b, rfl⟩ := fill_mem_prepared A true sfd avail a sqe h
    exact ⟨rfl, rfl⟩
  · intro h
    obtain ⟨b, rfl⟩ := fill_mem_prepared A false sfd avail a sqe h
    exact ⟨rfl, rfl⟩

/-- C8 witness: a fill with `fixed_files = true` over a one-buffer pool
prepares the sqe with fd index 0 and the fixed-file flag set. -/
theorem c8_fixed_files_addressing_witness :
    ({ fd := registered_file_index, fixed_file := true, user_data := 7 } : io_uring_sqe)
        ∈ (fill pool_alloc true 5 sq_depth pool_one_of_one).2.1 ∧
    (({ fd := registered_file_index, fixed_file := true, user_data := 7 } : io_uring_sqe).fixed_file
        = true
      ∧ ({ fd := registered_file_index, fixed_file := true, user_data := 7 } : io_uring_sqe).fd
        = registered_file_index) :=
  ⟨by decide,
   (c8_fixed_files_addressing pool_alloc 5 sq_depth pool_one_of_one
     { fd := registered_file_index, fixed_file := true, user_data := 7 }).1 (by decide)⟩

/-- C9: (1) every fill phase stops because either the submission queue
fills (it prepares exactly `avail` slots) or the buffer source is exhausted
(`get_buffer` on the final state yields nothing) — and it is a total
function, so each inner fill terminates; (2) whenever the wall clock
crosses the configured duration at some check within the fuel budget, the
run returns (it never loops indefinitely past the deadline; the deadline is
consulted only at iteration boundaries, `fill` takes no clock input); (3) a
run that returns success does so only after a deadline check observed
elapsed time strictly greater than the configured duration. -/
theorem c9_termination {σ : Type} (A : BufAlloc σ) (ff : Bool) (sfd : Int) (s : Sched)
    (avail d fuel k : Nat) (a : σ) (st : IterState σ) :
    ((fill A ff sfd avail a).2.1.length = avail
       ∨ A.get_buffer (fill A ff sfd avail a).1 = none) ∧
    (s.elapsed (k + d) > run_duration → d < fuel →
       (runLoop A ff sfd s fuel k st).isSome = true) ∧
    ((runLoop A ff sfd s fuel k st).map Prod.fst = some true →
       ∃ j, k ≤ j ∧ s.elapsed j > run_duration) :=
  ⟨fill_stops A ff sfd avail a,
   fun h hf => runLoop_terminates A ff sfd s d fuel k st h hf,
   fun h => runLoop_success_crossed A ff sfd s fuel k st h⟩

/-- C9 witness: with a clock already past the deadline, a run with fuel 1
returns, and its success implies the deadline was strictly crossed. -/
theorem c9_termination_witness :
    ((fill pool_alloc false 5 32 pool_one_of_one).2.1.length = 32
       ∨ pool_alloc.get_buffer (fill pool_alloc false 5 32 pool_one_of_one).1 = none) ∧
    ((runLoop pool_alloc false 5 sched_done 1 0 (initState pool_one_of_one)).isSome = true) ∧
    (∃ j, 0 ≤ j ∧ sched_done.elapsed j > run_duration) :=
  ⟨(c9_termination pool_alloc false 5 sched_done 32 0 1 0 pool_one_of_one
      (initState pool_one_of_one)).1,
   (c9_termination pool_alloc false 5 sched_done 32 0 1 0 pool_one_of_one
      (initState pool_one_of_one)).2.1 (by decide) (by decide),
   (c9_termination pool_alloc false 5 sched_done 32 0 1 0 pool_one_of_one
      (initState pool_one_of_one)).2.2 (by decide)⟩

/-- C10: when the fill phase has acquired a buffer but no submission slot
is available (the backpressure branch, main.cpp lines 239-243), the phase
prepares no slot, releases exactly the just-acquired buffer (the log is one
`acq`/`rel` pair on `ring[head % Capacity]`), the release is accepted, and
the pool's state is restored: the free-buffer count is unchanged and the
free-buffer contents are a permutation of what they were before the
acquisition (the ring positions rotate by one slot), so no buffer leaks. -/
theorem c10_backpressure_restores (ff : Bool) (sfd : Int) (p : buffer_pool)
    (hWF : p.WF) (hne : p.head ≠ p.tail) :
    (fill pool_alloc ff sfd 0 p).2.1 = [] ∧
    (fill pool_alloc ff sfd 0 p).2.2
      = [Ev.acq (p.ring (p.head % p.cap)), Ev.rel (p.ring (p.head % p.cap))] ∧
    (({ p with head := p.head + 1 } : buffer_pool).release_buffer
        (p.ring (p.head % p.cap))).1 = true ∧
    (fill pool_alloc ff sfd 0 p).1.freeCount = p.freeCount ∧
    ((fill pool_alloc ff sfd 0 p).1.freeList).Perm p.freeList := by
  have hget : p.get_buffer = some (p.ring (p.head % p.cap), { p with head := p.head + 1 }) := by
    unfold buffer_pool.get_buffer
    rw [if_neg hne]
  rw [fill_zero_of_get_some pool_alloc ff sfd hget]
  obtain ⟨hr1, -, -, hr4⟩ := get_release_restore hWF hget (p.ring (p.head % p.cap))
  exact ⟨rfl, rfl, hr1, hr4, get_release_freeList_perm hWF hne⟩

/-- C10 witness: the backpressure branch on a capacity-2 pool holding
buffer 9. -/
theorem c10_backpressure_restores_witness :
    pool_one_free.WF ∧ pool_one_free.head ≠ pool_one_free.tail ∧
    ((fill pool_alloc true 5 0 pool_one_free).2.1 = [] ∧
     (fill pool_alloc true 5 0 pool_one_free).2.2
       = [Ev.acq (pool_one_free.ring (pool_one_free.head % pool_one_free.cap)),
          Ev.rel (pool_one_free.ring (pool_one_free.head % pool_one_free.cap))] ∧
     (({ pool_one_free with head := pool_one_free.head + 1 } : buffer_pool).release_buffer
         (pool_one_free.ring (pool_one_free.head % pool_one_free.cap))).1 = true ∧
     (fill pool_alloc true 5 0 pool_one_free).1.freeCount = pool_one_free.freeCount ∧
     ((fill pool_alloc true 5 0 pool_one_free).1.freeList).Perm pool_one_free.freeList) :=
  ⟨by decide, by decide,
   c10_backpressure_restores true 5 pool_one_free (by decide) (by decide)⟩
